import Mathlib

/-!
Verification development for the deduplicator core (fileinfo.go, main.go):
a shallow embedding of the tree scanner, the duplicate matcher and the
deletion planner, with theorems about matching semantics, error propagation
and the deletion protocol.

Modeling conventions:
  * Paths are cleaned component lists with an absolute/relative flag; Go's
    `filepath.Rel` and `filepath.Base` are embedded on this representation
    (for cleaned, dot-dot-free inputs: `Rel` fails exactly when one path is
    absolute and the other relative, which is the reachable failure case for
    snapshots loaded from YAML).
  * The Go nested map `map[hash]map[locator]bool` of the matcher is modeled
    by its set of `(hash, locator)` entries, since only membership is ever
    queried; the `map[hash]path` of the planner is modeled by an updatable
    lookup function, since Go map assignment overwrites.
  * SHA-256 comes from the Go standard library, not from this repository;
    it is abstracted as a `hashFn` parameter on file contents (byte lists).
  * The filesystem seen by the scanner is an explicit tree value; the
    filesystem seen by the deletion path is the list of paths currently on
    disk, threaded through explicitly.
-/

/-- A filesystem path: an absolute/relative flag plus the list of cleaned
path components (no dot or dot-dot entries). -/
structure GoPath where
  abs : Bool
  comps : List String
deriving DecidableEq, Repr

/-- Render a component list the way Go renders a relative path: the empty
list is the current directory. -/
def joinComps (cs : List String) : String :=
  if cs.isEmpty then "." else String.intercalate "/" cs

/-- Go's filepath.Base: the last component of the path; the root path gives
the separator and the empty relative path gives the current directory. -/
def goBase (p : GoPath) : String :=
  match p.comps.getLast? with
  | some s => s
  | none => if p.abs then "/" else "."

/-- Length of the longest common prefix of two component lists. -/
def commonPrefixLen : List String → List String → Nat
  | a :: restA, b :: restB => if a = b then commonPrefixLen restA restB + 1 else 0
  | _, _ => 0

/-- Go's filepath.Rel on cleaned paths: fails (as filepath.Rel does) when one
path is absolute and the other relative; otherwise climbs out of the unshared
part of the base with dot-dot components and descends into the target. -/
def goRel (base targ : GoPath) : Option String :=
  if base.abs = targ.abs then
    let k := commonPrefixLen base.comps targ.comps
    some (joinComps (List.replicate (base.comps.length - k) ".." ++ targ.comps.drop k))
  else
    none

/-- FileInfo from fileinfo.go: a path and its content digest. -/
structure FileInfo where
  Path : GoPath
  Hash : String
deriving DecidableEq, Repr

/-- DirectoryInfo from fileinfo.go: the traversal root and the per-file
records of one tree. -/
structure DirectoryInfo where
  BaseDir : GoPath
  Files : List FileInfo
deriving DecidableEq, Repr

/-- GetFileMapFromDirectoryInfo from fileinfo.go. The nested Go map
`map[hash]map[locator]bool` is modeled by its list of (hash, locator)
entries, since the matcher only ever queries membership. The discarded
error of filepath.Rel (`relPath, _ := filepath.Rel(...)`) leaves the empty
string as the relative path, exactly as in Go. -/
def GetFileMapFromDirectoryInfo (dirInfo : DirectoryInfo) (exactPathMatch : Bool) :
    List (String × String) :=
  dirInfo.Files.map fun file =>
    let relPath := (goRel dirInfo.BaseDir file.Path).getD ""
    if exactPathMatch then (file.Hash, relPath) else (file.Hash, goBase file.Path)

/-- CompareFiles from fileinfo.go: a target file is kept when its hash is
present in the reference map together with its locator (relative path in
exact-path mode, base name otherwise). The filepath.Rel error is discarded
here as well. -/
def CompareFiles (refDir targetDir : DirectoryInfo) (exactPathMatch : Bool) :
    List FileInfo :=
  let refFileMap := GetFileMapFromDirectoryInfo refDir exactPathMatch
  targetDir.Files.filter fun file =>
    let relPath := (goRel targetDir.BaseDir file.Path).getD ""
    let key := if exactPathMatch then relPath else goBase file.Path
    decide ((file.Hash, key) ∈ refFileMap)

/-- The filesystem as the deletion path sees it: the list of paths of the
files currently on disk (duplicate-free for a real tree). -/
abbrev FS := List GoPath

/-- os.Remove: fails when no file exists at the given path, otherwise the
path disappears from the filesystem. -/
def osRemove (fs : FS) (p : GoPath) : Option FS :=
  if p ∈ fs then some (fs.filter fun q => decide (q ≠ p)) else none

/-- DeleteFiles from fileinfo.go, with the filesystem passed explicitly:
removes the listed files in order and stops at the first failing removal,
returning the failing path as the error. -/
def DeleteFiles (fs : FS) : List FileInfo → FS × Option GoPath
  | [] => (fs, none)
  | file :: rest =>
    match osRemove fs file.Path with
    | some fsNext => DeleteFiles fsNext rest
    | none => (fs, some file.Path)

/-- The Go zero-value string rendered as a path: what a failed lookup in the
planner's hash map yields. -/
def emptyGoPath : GoPath := ⟨false, []⟩

/-- The hash-to-path map built by printDeletionPlan in main.go, as a lookup
function: each Go map assignment overwrites the path previously stored for
the same hash, iterating over the reference records in order. -/
def refHashMap (files : List FileInfo) : String → Option GoPath :=
  files.foldl (fun m file => fun h => if h = file.Hash then some file.Path else m h)
    (fun _ => none)

/-- printDeletionPlan from main.go, returning the printed (target path,
annotated reference path) pairs instead of writing them to stdout. The
targetDir argument is accepted and unused, as in the source. -/
def printDeletionPlan (duplicates : List FileInfo) (refDir : DirectoryInfo)
    (targetDir : DirectoryInfo) : List (GoPath × GoPath) :=
  let refFileMap := refHashMap refDir.Files
  duplicates.map fun file => (file.Path, (refFileMap file.Hash).getD emptyGoPath)

/-- Go's strings.TrimSpace: strip whitespace from both ends of a string. -/
def trimSpace (s : String) : String :=
  ⟨((s.data.dropWhile Char.isWhitespace).reverse.dropWhile
    Char.isWhitespace).reverse⟩

/-- The deletion phase at the end of main.go: with the deleteFiles flag set
the user is prompted and DeleteFiles runs only on the trimmed answer yes;
with the flag unset, or on any other answer, only the deletion plan is
printed. Returns the filesystem, the printed plan entries and the error of
DeleteFiles. -/
def runDeletionPhase (deleteFilesFlag : Bool) (input : String)
    (duplicates : List FileInfo) (refDir targetDir : DirectoryInfo) (fs : FS) :
    FS × List (GoPath × GoPath) × Option GoPath :=
  if deleteFilesFlag then
    if trimSpace input = "yes" then
      let r := DeleteFiles fs duplicates
      (r.1, [], r.2)
    else
      (fs, printDeletionPlan duplicates refDir targetDir, none)
  else
    (fs, printDeletionPlan duplicates refDir targetDir, none)

/-- A node of the scanned file tree. A file whose content is none cannot be
opened or read (its hashing fails); a directory whose entry list is none
cannot be listed. Symbolic links carry no target: the scanner never follows
them. -/
inductive FsNode where
  | file (name : String) (content : Option (List Nat))
  | symlink (name : String)
  | dir (name : String) (entries : Option (List FsNode))

/-- The name of a tree node within its parent directory. -/
def FsNode.name : FsNode → String
  | .file n _ => n
  | .symlink n => n
  | .dir n _ => n

/-- The path of a child node below the path of its parent. -/
def childPath (p : GoPath) (n : FsNode) : GoPath :=
  ⟨p.abs, p.comps ++ [n.name]⟩

mutual
/-- One filepath.Walk visit from the walker goroutine of WalkDirectory in
fileinfo.go, with hashing folded in: symlinks are skipped before anything
else; a non-directory is hashed into a FileInfo (a failed open or read is
the error); a directory is recursed into (a failed listing is the error).
The concurrent fan-out is sequentialized: records appear in traversal order
and the error surfaced is the first in traversal order; the claims proved
below are invariant under both choices. -/
def walkNode (hashFn : List Nat → String) (p : GoPath) : FsNode → Except GoPath (List FileInfo)
  | .symlink _ => .ok []
  | .file _ none => .error p
  | .file _ (some content) => .ok [⟨p, hashFn content⟩]
  | .dir _ none => .error p
  | .dir _ (some entries) => walkEntries hashFn p entries

/-- Walk the children of a directory in listing order, failing fast. -/
def walkEntries (hashFn : List Nat → String) (p : GoPath) : List FsNode → Except GoPath (List FileInfo)
  | [] => .ok []
  | e :: rest =>
    match walkNode hashFn (childPath p e) e with
    | .error err => .error err
    | .ok fsHere =>
      match walkEntries hashFn p rest with
      | .error err => .error err
      | .ok fsRest => .ok (fsHere ++ fsRest)
end

/-- WalkDirectory from fileinfo.go. With parallelism at most 0 the worker
loop starts no workers, wg.Wait returns at once and the call hands back an
empty snapshot while the walker goroutine is left blocked on its first
channel send (the YAML-streaming flag only writes to stdout and is not
modeled). With at least one worker, the call returns the records of a
complete walk, or an error and no snapshot when any listing or hashing
failed. -/
def WalkDirectory (hashFn : List Nat → String) (root : GoPath) (tree : FsNode)
    (parallelism : Int) (outputYamlToStdout : Bool) : Except GoPath DirectoryInfo :=
  if parallelism ≤ 0 then
    .ok ⟨root, []⟩
  else
    match walkNode hashFn root tree with
    | .ok files => .ok ⟨root, files⟩
    | .error e => .error e

mutual
/-- Whether some directory listing or some single file's open or read fails
somewhere in the tree (symlinks are skipped and cannot fail). -/
def treeHasError : FsNode → Bool
  | .file _ none => true
  | .file _ (some _) => false
  | .symlink _ => false
  | .dir _ none => true
  | .dir _ (some entries) => entriesHaveError entries

/-- Whether some entry of a directory contains a failure. -/
def entriesHaveError : List FsNode → Bool
  | [] => false
  | e :: rest => treeHasError e || entriesHaveError rest
end

mutual
/-- The paths of the regular, non-symlink files under a node, in traversal
order. -/
def regFilePaths (p : GoPath) : FsNode → List GoPath
  | .file _ _ => [p]
  | .symlink _ => []
  | .dir _ none => []
  | .dir _ (some entries) => regFilePathsList p entries

/-- The paths of the regular, non-symlink files under a directory's entries. -/
def regFilePathsList (p : GoPath) : List FsNode → List GoPath
  | [] => []
  | e :: rest => regFilePaths (childPath p e) e ++ regFilePathsList p rest
end

/-- The locator of the specification: the file's path relative to its tree's
baseDir in exact-path mode, its base name in name-only mode. Stated from the
spec's words, for comparison with the locator the code computes. -/
def specLocator (exactPathMode : Bool) (baseDir : GoPath) (p : GoPath) : String :=
  if exactPathMode then joinComps (p.comps.drop baseDir.comps.length) else goBase p

/-- The TreeSnapshot invariant of the data model: every file path lies under
the snapshot's baseDir, so a relative path can always be derived. -/
def WellFormed (d : DirectoryInfo) : Prop :=
  ∀ f ∈ d.Files, d.BaseDir.abs = f.Path.abs ∧
    d.BaseDir.comps.isPrefixOf f.Path.comps = true

instance (d : DirectoryInfo) : Decidable (WellFormed d) := by
  unfold WellFormed
  infer_instance

/-- The first reference record carrying the given digest, in snapshot order:
the annotation source the claim about deletion plans names. Stated from the
spec's words, for comparison with the annotation the code computes. -/
def firstRefPathWithDigest (refDir : DirectoryInfo) (h : String) : Option GoPath :=
  (refDir.Files.find? fun r => r.Hash == h).map fun r => r.Path

/-- Replace the prefix a path inherits from the old tree root by a new root. -/
def rerootPath (oldBase newBase p : GoPath) : GoPath :=
  ⟨newBase.abs, newBase.comps ++ p.comps.drop oldBase.comps.length⟩

/-- Relocate one file record from the old tree root to a new root. -/
def rerootFile (oldBase newBase : GoPath) (f : FileInfo) : FileInfo :=
  ⟨rerootPath oldBase newBase f.Path, f.Hash⟩

/-- Relocate a whole snapshot: replace its baseDir by a new root and
re-prefix every file path accordingly. -/
def rerootDir (newBase : GoPath) (d : DirectoryInfo) : DirectoryInfo :=
  ⟨newBase, d.Files.map (rerootFile d.BaseDir newBase)⟩

theorem commonPrefixLen_self_append (l s : List String) :
    commonPrefixLen l (l ++ s) = l.length := by
  induction l with
  | nil => simp [commonPrefixLen]
  | cons a rest ih => simp [commonPrefixLen, ih]

theorem goRel_of_under (b p : GoPath) (habs : b.abs = p.abs)
    (hpre : b.comps.isPrefixOf p.comps = true) :
    goRel b p = some (joinComps (p.comps.drop b.comps.length)) := by
  obtain ⟨s, hs⟩ := List.isPrefixOf_iff_prefix.mp hpre
  simp [goRel, habs, ← hs, commonPrefixLen_self_append, List.drop_left]

theorem locator_eq_specLocator (exact : Bool) (b p : GoPath)
    (habs : b.abs = p.abs) (hpre : b.comps.isPrefixOf p.comps = true) :
    (if exact then (goRel b p).getD "" else goBase p) = specLocator exact b p := by
  cases exact with
  | false => rfl
  | true => simp [goRel_of_under b p habs hpre, specLocator]

theorem GetFileMap_entry (d : DirectoryInfo) (exact : Bool) :
    GetFileMapFromDirectoryInfo d exact = d.Files.map fun file =>
      (file.Hash, if exact then (goRel d.BaseDir file.Path).getD ""
                  else goBase file.Path) := by
  unfold GetFileMapFromDirectoryInfo
  cases exact <;> simp

theorem mem_GetFileMap (d : DirectoryInfo) (exact : Bool) (h l : String) :
    (h, l) ∈ GetFileMapFromDirectoryInfo d exact ↔
      ∃ r ∈ d.Files, r.Hash = h ∧
        (if exact then (goRel d.BaseDir r.Path).getD "" else goBase r.Path) = l := by
  rw [GetFileMap_entry, List.mem_map]
  constructor
  · rintro ⟨r, hr, heq⟩
    rw [Prod.ext_iff] at heq
    exact ⟨r, hr, heq.1, heq.2⟩
  · rintro ⟨r, hr, hh, hl⟩
    exact ⟨r, hr, by rw [Prod.ext_iff]; exact ⟨hh, hl⟩⟩

theorem CompareFiles_eq_filter (refDir targetDir : DirectoryInfo) (exact : Bool) :
    CompareFiles refDir targetDir exact = targetDir.Files.filter fun file =>
      decide ((file.Hash, if exact then (goRel targetDir.BaseDir file.Path).getD ""
                          else goBase file.Path)
        ∈ GetFileMapFromDirectoryInfo refDir exact) := by
  rfl

mutual
/-- A walk over a tree containing a listing or hashing failure ends in an
error. -/
theorem walkNode_error_of_treeHasError (hashFn : List Nat → String) (p : GoPath)
    (n : FsNode) : treeHasError n = true → ∃ e, walkNode hashFn p n = .error e := by
  match n with
  | .file _ none => exact fun _ => ⟨p, rfl⟩
  | .file _ (some _) => intro h; simp [treeHasError] at h
  | .symlink _ => intro h; simp [treeHasError] at h
  | .dir _ none => exact fun _ => ⟨p, rfl⟩
  | .dir _ (some entries) =>
    intro h
    rw [treeHasError] at h
    obtain ⟨e, he⟩ := walkEntries_error_of_entriesHaveError hashFn p entries h
    exact ⟨e, by rw [walkNode]; exact he⟩

/-- Walking the entries of a directory containing a failure ends in an
error. -/
theorem walkEntries_error_of_entriesHaveError (hashFn : List Nat → String)
    (p : GoPath) (es : List FsNode) :
    entriesHaveError es = true → ∃ e, walkEntries hashFn p es = .error e := by
  match es with
  | [] => intro h; simp [entriesHaveError] at h
  | n :: rest =>
    intro h
    rw [entriesHaveError, Bool.or_eq_true] at h
    rw [walkEntries]
    cases hn : walkNode hashFn (childPath p n) n with
    | error err => exact ⟨err, rfl⟩
    | ok fsHere =>
      cases h with
      | inl hfirst =>
        obtain ⟨e, he⟩ := walkNode_error_of_treeHasError hashFn (childPath p n) n hfirst
        rw [hn] at he
        exact absurd he (by simp)
      | inr hrest =>
        obtain ⟨e, he⟩ := walkEntries_error_of_entriesHaveError hashFn p rest hrest
        rw [he]
        exact ⟨e, rfl⟩
end

mutual
/-- A successful walk records exactly the regular, non-symlink files under
the node, in traversal order. -/
theorem walkNode_ok_paths (hashFn : List Nat → String) (p : GoPath) (n : FsNode) :
    ∀ fs, walkNode hashFn p n = .ok fs →
      (fs.map fun f => f.Path) = regFilePaths p n := by
  match n with
  | .file _ none => intro fs h; simp [walkNode] at h
  | .file _ (some c) =>
    intro fs h
    rw [walkNode] at h
    cases h
    rfl
  | .symlink _ =>
    intro fs h
    rw [walkNode] at h
    cases h
    rfl
  | .dir _ none => intro fs h; simp [walkNode] at h
  | .dir _ (some entries) =>
    intro fs h
    rw [walkNode] at h
    rw [regFilePaths]
    exact walkEntries_ok_paths hashFn p entries fs h

/-- A successful walk of a directory's entries records exactly the regular
files under them, in listing order. -/
theorem walkEntries_ok_paths (hashFn : List Nat → String) (p : GoPath)
    (es : List FsNode) :
    ∀ fs, walkEntries hashFn p es = .ok fs →
      (fs.map fun f => f.Path) = regFilePathsList p es := by
  match es with
  | [] =>
    intro fs h
    rw [walkEntries] at h
    cases h
    rfl
  | n :: rest =>
    intro fs h
    rw [walkEntries] at h
    cases hn : walkNode hashFn (childPath p n) n with
    | error err => rw [hn] at h; simp at h
    | ok fsHere =>
      rw [hn] at h
      cases hr : walkEntries hashFn p rest with
      | error err => rw [hr] at h; simp at h
      | ok fsRest =>
        rw [hr] at h
        simp only [Except.ok.injEq] at h
        subst h
        rw [regFilePathsList, List.map_append,
          walkNode_ok_paths hashFn (childPath p n) n fsHere hn,
          walkEntries_ok_paths hashFn p rest fsRest hr]
end

theorem mem_osRemove_filter (fs : FS) (p q : GoPath) :
    (q ∈ fs.filter fun x => decide (x ≠ p)) ↔ (q ∈ fs ∧ q ≠ p) := by
  simp [List.mem_filter]

/-- When every listed file is on disk and the listed paths are distinct,
DeleteFiles removes them all, reports no error, and touches nothing else. -/
theorem DeleteFiles_all_present (files : List FileInfo) (fs : FS)
    (hall : ∀ f ∈ files, f.Path ∈ fs)
    (hnd : (files.map fun f => f.Path).Nodup) :
    (DeleteFiles fs files).2 = none ∧
    ∀ q, q ∈ (DeleteFiles fs files).1 ↔
      (q ∈ fs ∧ q ∉ files.map fun f => f.Path) := by
  induction files generalizing fs with
  | nil => exact ⟨rfl, fun q => by simp [DeleteFiles]⟩
  | cons file rest ih =>
    have hmem : file.Path ∈ fs := hall file (by simp)
    have hstep : DeleteFiles fs (file :: rest)
        = DeleteFiles (fs.filter fun x => decide (x ≠ file.Path)) rest := by
      rw [DeleteFiles, osRemove, if_pos hmem]
    rw [List.map_cons, List.nodup_cons] at hnd
    have hall' : ∀ f ∈ rest, f.Path ∈ fs.filter fun x => decide (x ≠ file.Path) := by
      intro f hf
      rw [mem_osRemove_filter]
      refine ⟨hall f (by simp [hf]), ?_⟩
      intro hpe
      exact hnd.1 (hpe ▸ List.mem_map_of_mem (fun g => g.Path) hf)
    obtain ⟨h1, h2⟩ := ih (fs.filter fun x => decide (x ≠ file.Path)) hall' hnd.2
    rw [hstep]
    refine ⟨h1, fun q => ?_⟩
    rw [h2 q, mem_osRemove_filter]
    simp only [List.map_cons, List.mem_cons]
    constructor
    · rintro ⟨⟨hqfs, hqne⟩, hqrest⟩
      exact ⟨hqfs, by simp [hqne, hqrest]⟩
    · rintro ⟨hqfs, hq⟩
      push_neg at hq
      exact ⟨⟨hqfs, hq.1⟩, hq.2⟩

theorem refHashMap_loop (files : List FileInfo) (m : String → Option GoPath)
    (h : String) :
    (files.foldl (fun m file => fun x =>
        if x = file.Hash then some file.Path else m x) m) h
      = match files.reverse.find? fun r => r.Hash == h with
        | some r => some r.Path
        | none => m h := by
  induction files generalizing m with
  | nil => simp
  | cons file rest ih =>
    rw [List.foldl_cons, ih, List.reverse_cons, List.find?_append]
    cases hfind : rest.reverse.find? fun r => r.Hash == h with
    | some r => simp [hfind]
    | none =>
      simp only [hfind, Option.none_orElse]
      by_cases hh : file.Hash = h
      · simp [List.find?, hh]
      · have : (file.Hash == h) = false := by simp [hh]
        simp [List.find?, this, Ne.symm hh]

/-- The annotation map of printDeletionPlan resolves each digest to the path
of the last reference record carrying it, in snapshot order. -/
theorem refHashMap_eq_find_reverse (files : List FileInfo) (h : String) :
    refHashMap files h
      = (files.reverse.find? fun r => r.Hash == h).map fun r => r.Path := by
  rw [refHashMap, refHashMap_loop]
  cases files.reverse.find? fun r => r.Hash == h <;> rfl

/-- Relocating a path under a new root leaves its relative path intact, and
the relative-path derivation always succeeds under the new root. -/
theorem goRel_reroot (b nb p : GoPath) :
    goRel nb (rerootPath b nb p)
      = some (joinComps (p.comps.drop b.comps.length)) := by
  have h := goRel_of_under nb (rerootPath b nb p) rfl
    (List.isPrefixOf_iff_prefix.mpr (List.prefix_append _ _))
  rw [h, rerootPath]
  simp [List.drop_left]

/-- C1: a target FileRecord appears in the DuplicateSet returned by
CompareFiles iff some reference FileRecord has an equal digest and an equal
locator under the active mode, the locator being the path relative to the
record's own tree baseDir when exactPathMode is true and the file's base
name when it is false; the snapshots satisfy the TreeSnapshot invariant
that every file path lies under its baseDir. -/
theorem CompareFiles_mem_iff (refDir targetDir : DirectoryInfo) (exact : Bool)
    (f : FileInfo) (href : WellFormed refDir) (htgt : WellFormed targetDir) :
    f ∈ CompareFiles refDir targetDir exact ↔
      f ∈ targetDir.Files ∧ ∃ r ∈ refDir.Files, r.Hash = f.Hash ∧
        specLocator exact refDir.BaseDir r.Path
          = specLocator exact targetDir.BaseDir f.Path := by
  rw [CompareFiles_eq_filter, List.mem_filter, decide_eq_true_iff]
  constructor
  · rintro ⟨hmem, hkey⟩
    refine ⟨hmem, ?_⟩
    rw [mem_GetFileMap] at hkey
    obtain ⟨r, hr, hh, hl⟩ := hkey
    refine ⟨r, hr, hh, ?_⟩
    rw [← locator_eq_specLocator exact refDir.BaseDir r.Path (href r hr).1 (href r hr).2,
      ← locator_eq_specLocator exact targetDir.BaseDir f.Path (htgt f hmem).1 (htgt f hmem).2]
    exact hl
  · rintro ⟨hmem, r, hr, hh, hl⟩
    refine ⟨hmem, ?_⟩
    rw [mem_GetFileMap]
    refine ⟨r, hr, hh, ?_⟩
    rw [locator_eq_specLocator exact refDir.BaseDir r.Path (href r hr).1 (href r hr).2,
      locator_eq_specLocator exact targetDir.BaseDir f.Path (htgt f hmem).1 (htgt f hmem).2]
    exact hl

/-- Witness for C1: in exact-path mode, a target file whose relative path
and digest both match a reference file is reported as a duplicate. -/
theorem CompareFiles_mem_iff_witness :
    (⟨⟨false, ["t", "a.txt"]⟩, "h1"⟩ : FileInfo) ∈
      CompareFiles ⟨⟨false, ["r"]⟩, [⟨⟨false, ["r", "a.txt"]⟩, "h1"⟩]⟩
        ⟨⟨false, ["t"]⟩, [⟨⟨false, ["t", "a.txt"]⟩, "h1"⟩]⟩ true :=
  (CompareFiles_mem_iff
      ⟨⟨false, ["r"]⟩, [⟨⟨false, ["r", "a.txt"]⟩, "h1"⟩]⟩
      ⟨⟨false, ["t"]⟩, [⟨⟨false, ["t", "a.txt"]⟩, "h1"⟩]⟩ true
      ⟨⟨false, ["t", "a.txt"]⟩, "h1"⟩
      (by decide) (by decide)).mpr
    ⟨by decide, ⟨⟨false, ["r", "a.txt"]⟩, "h1"⟩, by decide, rfl, by decide⟩

/-- C9: CompareFiles is deterministic, and the duplicate set viewed as an
unordered collection of paths is unchanged under any permutation of the
reference snapshot's file sequence and any permutation of the target
snapshot's file sequence. -/
theorem CompareFiles_deterministic_order_invariant
    (r₁ r₂ t₁ t₂ : DirectoryInfo) (m : Bool)
    (hrB : r₁.BaseDir = r₂.BaseDir) (htB : t₁.BaseDir = t₂.BaseDir)
    (hr : r₁.Files.Perm r₂.Files) (ht : t₁.Files.Perm t₂.Files) :
    CompareFiles r₁ t₁ m = CompareFiles r₁ t₁ m ∧
    ((CompareFiles r₁ t₁ m).map fun f => f.Path).Perm
      ((CompareFiles r₂ t₂ m).map fun f => f.Path) := by
  refine ⟨rfl, ?_⟩
  have hmap : (GetFileMapFromDirectoryInfo r₁ m).Perm
      (GetFileMapFromDirectoryInfo r₂ m) := by
    rw [GetFileMap_entry, GetFileMap_entry, hrB]
    exact hr.map _
  have p1 : (CompareFiles r₁ t₁ m).Perm (CompareFiles r₁ t₂ m) := by
    simp only [CompareFiles_eq_filter, htB]
    exact ht.filter _
  have e1 : CompareFiles r₁ t₂ m = CompareFiles r₂ t₂ m := by
    simp only [CompareFiles_eq_filter]
    exact List.filter_congr fun x _ => by
      rw [decide_eq_decide]
      exact hmap.mem_iff
  exact (e1 ▸ p1).map _

/-- Witness for C9: applying the theorem to a concrete snapshot pair (the
trivial permutation) returns the same duplicate path multiset. -/
theorem CompareFiles_deterministic_order_invariant_witness :
    CompareFiles ⟨⟨false, ["r"]⟩, [⟨⟨false, ["r", "a.txt"]⟩, "h1"⟩]⟩
        ⟨⟨false, ["t"]⟩, [⟨⟨false, ["t", "a.txt"]⟩, "h1"⟩]⟩ true
      = CompareFiles ⟨⟨false, ["r"]⟩, [⟨⟨false, ["r", "a.txt"]⟩, "h1"⟩]⟩
        ⟨⟨false, ["t"]⟩, [⟨⟨false, ["t", "a.txt"]⟩, "h1"⟩]⟩ true ∧
    ((CompareFiles ⟨⟨false, ["r"]⟩, [⟨⟨false, ["r", "a.txt"]⟩, "h1"⟩]⟩
        ⟨⟨false, ["t"]⟩, [⟨⟨false, ["t", "a.txt"]⟩, "h1"⟩]⟩ true).map
          fun f => f.Path).Perm
      ((CompareFiles ⟨⟨false, ["r"]⟩, [⟨⟨false, ["r", "a.txt"]⟩, "h1"⟩]⟩
        ⟨⟨false, ["t"]⟩, [⟨⟨false, ["t", "a.txt"]⟩, "h1"⟩]⟩ true).map
          fun f => f.Path) :=
  CompareFiles_deterministic_order_invariant
    ⟨⟨false, ["r"]⟩, [⟨⟨false, ["r", "a.txt"]⟩, "h1"⟩]⟩
    ⟨⟨false, ["r"]⟩, [⟨⟨false, ["r", "a.txt"]⟩, "h1"⟩]⟩
    ⟨⟨false, ["t"]⟩, [⟨⟨false, ["t", "a.txt"]⟩, "h1"⟩]⟩
    ⟨⟨false, ["t"]⟩, [⟨⟨false, ["t", "a.txt"]⟩, "h1"⟩]⟩ true
    rfl rfl (List.Perm.refl _) (List.Perm.refl _)

/-- C10: in exact-path mode, matching is invariant under relocating either
tree: replacing a snapshot's baseDir by a new root and re-prefixing every
file path accordingly yields the same DuplicateSet, with the target-side
paths re-prefixed correspondingly. -/
theorem CompareFiles_reroot_invariant (refDir targetDir : DirectoryInfo)
    (newRef newTgt : GoPath)
    (href : WellFormed refDir) (htgt : WellFormed targetDir) :
    CompareFiles (rerootDir newRef refDir) (rerootDir newTgt targetDir) true
      = (CompareFiles refDir targetDir true).map
          (rerootFile targetDir.BaseDir newTgt) := by
  have hmap : GetFileMapFromDirectoryInfo (rerootDir newRef refDir) true
      = GetFileMapFromDirectoryInfo refDir true := by
    simp only [GetFileMap_entry, rerootDir, List.map_map]
    apply List.map_congr_left
    intro r hr
    simp only [Function.comp, rerootFile, if_pos]
    rw [goRel_reroot,
      goRel_of_under refDir.BaseDir r.Path (href r hr).1 (href r hr).2]
  rw [CompareFiles_eq_filter, CompareFiles_eq_filter, hmap]
  simp only [rerootDir, List.filter_map]
  congr 1
  apply List.filter_congr
  intro x hx
  simp only [Function.comp, rerootFile]
  rw [decide_eq_decide]
  rw [goRel_reroot,
    goRel_of_under targetDir.BaseDir x.Path (htgt x hx).1 (htgt x hx).2]
  simp

/-- Witness for C10: relocating both concrete trees leaves the duplicate
set equal to the original one with its paths re-prefixed. -/
theorem CompareFiles_reroot_invariant_witness :
    CompareFiles
        (rerootDir ⟨true, ["nr"]⟩ ⟨⟨false, ["r"]⟩, [⟨⟨false, ["r", "a.txt"]⟩, "h1"⟩]⟩)
        (rerootDir ⟨true, ["nt"]⟩ ⟨⟨false, ["t"]⟩, [⟨⟨false, ["t", "a.txt"]⟩, "h1"⟩]⟩) true
      = (CompareFiles ⟨⟨false, ["r"]⟩, [⟨⟨false, ["r", "a.txt"]⟩, "h1"⟩]⟩
          ⟨⟨false, ["t"]⟩, [⟨⟨false, ["t", "a.txt"]⟩, "h1"⟩]⟩ true).map
          (rerootFile ⟨false, ["t"]⟩ ⟨true, ["nt"]⟩) :=
  CompareFiles_reroot_invariant
    ⟨⟨false, ["r"]⟩, [⟨⟨false, ["r", "a.txt"]⟩, "h1"⟩]⟩
    ⟨⟨false, ["t"]⟩, [⟨⟨false, ["t", "a.txt"]⟩, "h1"⟩]⟩
    ⟨true, ["nr"]⟩ ⟨true, ["nt"]⟩ (by decide) (by decide)

/-- C3: when any directory listing or any single file's hashing fails
somewhere under the root, the scan call (with at least one worker, as the
scan contract requires) fails as a whole: it returns an error and no
snapshot value containing the records hashed before the failure. -/
theorem WalkDirectory_fails_whole (hashFn : List Nat → String) (root : GoPath)
    (tree : FsNode) (parallelism : Int) (outputYamlToStdout : Bool)
    (hpar : 0 < parallelism) (herr : treeHasError tree = true) :
    (∃ e, WalkDirectory hashFn root tree parallelism outputYamlToStdout
        = .error e) ∧
    ∀ snap, WalkDirectory hashFn root tree parallelism outputYamlToStdout
        ≠ .ok snap := by
  have hnle : ¬ parallelism ≤ 0 := by omega
  obtain ⟨e, he⟩ := walkNode_error_of_treeHasError hashFn root tree herr
  have hw : WalkDirectory hashFn root tree parallelism outputYamlToStdout
      = .error e := by
    rw [WalkDirectory, if_neg hnle, he]
  exact ⟨⟨e, hw⟩, fun snap hok => by rw [hw] at hok; cases hok⟩

/-- Witness for C3: scanning a tree whose single file cannot be read fails
and yields no snapshot. -/
theorem WalkDirectory_fails_whole_witness :
    (∃ e, WalkDirectory (fun _ => "h") ⟨false, ["root"]⟩
        (.dir "root" (some [.file "bad.txt" none])) 1 false = .error e) ∧
    WalkDirectory (fun _ => "h") ⟨false, ["root"]⟩
        (.dir "root" (some [.file "bad.txt" none])) 1 false
      ≠ .ok ⟨⟨false, ["root"]⟩, []⟩ :=
  ⟨(WalkDirectory_fails_whole (fun _ => "h") ⟨false, ["root"]⟩
      (.dir "root" (some [.file "bad.txt" none])) 1 false (by decide) rfl).1,
   (WalkDirectory_fails_whole (fun _ => "h") ⟨false, ["root"]⟩
      (.dir "root" (some [.file "bad.txt" none])) 1 false (by decide) rfl).2
     ⟨⟨false, ["root"]⟩, []⟩⟩

/-- C4: a successful scan (with at least one worker) records one FileRecord
per regular non-symlink file under the root and records no directories and
no symbolic links, so the recorded paths are exactly the regular-file paths
and the count of FileRecords equals the count of regular non-symlink
files. -/
theorem WalkDirectory_records_regular_files (hashFn : List Nat → String)
    (root : GoPath) (tree : FsNode) (parallelism : Int)
    (outputYamlToStdout : Bool) (snap : DirectoryInfo)
    (hpar : 0 < parallelism)
    (hok : WalkDirectory hashFn root tree parallelism outputYamlToStdout
      = .ok snap) :
    (snap.Files.map fun f => f.Path) = regFilePaths root tree ∧
    snap.Files.length = (regFilePaths root tree).length := by
  have hnle : ¬ parallelism ≤ 0 := by omega
  rw [WalkDirectory, if_neg hnle] at hok
  cases hw : walkNode hashFn root tree with
  | error err => rw [hw] at hok; cases hok
  | ok files =>
    rw [hw] at hok
    cases hok
    have hp := walkNode_ok_paths hashFn root tree files hw
    exact ⟨hp, by rw [← hp, List.length_map]⟩

/-- Witness for C4: scanning a concrete tree containing a regular file, a
symlink and a subdirectory records exactly the regular file. -/
theorem WalkDirectory_records_regular_files_witness :
    (([⟨⟨false, ["root", "a.txt"]⟩, "h"⟩] : List FileInfo).map fun f => f.Path)
      = regFilePaths ⟨false, ["root"]⟩
          (.dir "root" (some [.file "a.txt" (some [65]),
            .symlink "link", .dir "sub" (some [])])) ∧
    ([⟨⟨false, ["root", "a.txt"]⟩, "h"⟩] : List FileInfo).length
      = (regFilePaths ⟨false, ["root"]⟩
          (.dir "root" (some [.file "a.txt" (some [65]),
            .symlink "link", .dir "sub" (some [])]))).length :=
  WalkDirectory_records_regular_files (fun _ => "h") ⟨false, ["root"]⟩
    (.dir "root" (some [.file "a.txt" (some [65]),
      .symlink "link", .dir "sub" (some [])])) 1 false
    ⟨⟨false, ["root"]⟩, [⟨⟨false, ["root", "a.txt"]⟩, "h"⟩]⟩
    (by decide) rfl

/-- C7 (refuted by the code): WalkDirectory neither rejects nor clamps a
worker count of 0 — the worker loop starts no goroutine, wg.Wait returns at
once, and the call hands back an empty snapshot even though the tree holds
a regular file that is never hashed; the walker goroutine is left blocked
forever on its first channel send. -/
theorem WalkDirectory_zero_workers_empty_snapshot :
    WalkDirectory (fun _ => "h") ⟨false, ["root"]⟩
        (.dir "root" (some [.file "a.txt" (some [65])])) 0 false
      = .ok ⟨⟨false, ["root"]⟩, []⟩ ∧
    regFilePaths ⟨false, ["root"]⟩
        (.dir "root" (some [.file "a.txt" (some [65])]))
      = [⟨false, ["root", "a.txt"]⟩] :=
  ⟨rfl, rfl⟩

/-- C5: confirmed deletion proceeds in list order and stops at the first
removal that fails: the failing entry's error is returned, every entry
before it has been removed, nothing but those entries left the filesystem,
and every entry after the failing one is left undeleted (the listed paths
are pairwise distinct, as they are for any DuplicateSet, whose members come
from distinct target files). -/
theorem DeleteFiles_fail_fast (files : List FileInfo) (fs fsOut : FS)
    (e : GoPath) (hnd : (files.map fun f => f.Path).Nodup)
    (h : DeleteFiles fs files = (fsOut, some e)) :
    ∃ pre fail post, files = pre ++ fail :: post ∧ e = fail.Path ∧
      fail.Path ∉ fs ∧
      (∀ g ∈ pre, g.Path ∈ fs ∧ g.Path ∉ fsOut) ∧
      (∀ q, q ∈ fsOut ↔ (q ∈ fs ∧ q ∉ pre.map fun f => f.Path)) ∧
      (∀ g ∈ post, (g.Path ∈ fsOut ↔ g.Path ∈ fs)) := by
  induction files generalizing fs with
  | nil =>
    rw [DeleteFiles] at h
    simp at h
  | cons file rest ih =>
    rw [List.map_cons, List.nodup_cons] at hnd
    by_cases hmem : file.Path ∈ fs
    · have hstep : DeleteFiles fs (file :: rest)
          = DeleteFiles (fs.filter fun x => decide (x ≠ file.Path)) rest := by
        rw [DeleteFiles, osRemove, if_pos hmem]
      rw [hstep] at h
      obtain ⟨pre, fail, post, hsplit, he, hfail, hpre, hout, hpost⟩ :=
        ih (fs.filter fun x => decide (x ≠ file.Path)) hnd.2 h
      have hfailrest : fail ∈ rest := by rw [hsplit]; simp
      have hfailne : fail.Path ≠ file.Path := by
        intro heq
        exact hnd.1 (heq ▸ List.mem_map_of_mem (fun f => f.Path) hfailrest)
      refine ⟨file :: pre, fail, post, by rw [hsplit]; rfl, he, ?_, ?_, ?_, ?_⟩
      · intro hin
        exact hfail ((mem_osRemove_filter fs file.Path fail.Path).mpr
          ⟨hin, hfailne⟩)
      · intro g hg
        rcases List.mem_cons.mp hg with hgf | hgpre
        · subst hgf
          refine ⟨hmem, fun hin => ?_⟩
          have hin2 := ((hout g.Path).mp hin).1
          exact absurd ((mem_osRemove_filter _ _ _).mp hin2).2 (by simp)
        · obtain ⟨h1, h2⟩ := hpre g hgpre
          exact ⟨((mem_osRemove_filter _ _ _).mp h1).1, h2⟩
      · intro q
        rw [hout q, mem_osRemove_filter]
        simp only [List.map_cons, List.mem_cons]
        constructor
        · rintro ⟨⟨hq1, hq2⟩, hq3⟩
          exact ⟨hq1, by simp [hq2, hq3]⟩
        · rintro ⟨hq1, hq2⟩
          push_neg at hq2
          exact ⟨⟨hq1, hq2.1⟩, hq2.2⟩
      · intro g hg
        have hgrest : g ∈ rest := by rw [hsplit]; simp [hg]
        have hgne : g.Path ≠ file.Path := by
          intro heq
          exact hnd.1 (heq ▸ List.mem_map_of_mem (fun f => f.Path) hgrest)
        rw [hpost g hg, mem_osRemove_filter]
        simp [hgne]
    · have hstep : DeleteFiles fs (file :: rest) = (fs, some file.Path) := by
        rw [DeleteFiles, osRemove, if_neg hmem]
      rw [hstep] at h
      rw [Prod.mk.injEq, Option.some.injEq] at h
      obtain ⟨h1, h2⟩ := h
      refine ⟨[], file, rest, rfl, h2.symm, hmem, by simp, fun q => by
        simp [← h1], fun g hg => by rw [← h1]⟩

/-- Witness for C5: deleting three files of which the second is missing
removes the first, reports the second as the error and leaves the third on
disk. -/
theorem DeleteFiles_fail_fast_witness :
    ∃ pre fail post,
      ([⟨⟨false, ["a"]⟩, "h"⟩, ⟨⟨false, ["b"]⟩, "h"⟩,
        ⟨⟨false, ["c"]⟩, "h"⟩] : List FileInfo) = pre ++ fail :: post ∧
      (⟨false, ["b"]⟩ : GoPath) = fail.Path ∧
      fail.Path ∉ ([⟨false, ["a"]⟩, ⟨false, ["c"]⟩] : FS) ∧
      (∀ g ∈ pre, g.Path ∈ ([⟨false, ["a"]⟩, ⟨false, ["c"]⟩] : FS) ∧
        g.Path ∉ ([⟨false, ["c"]⟩] : FS)) ∧
      (∀ q, q ∈ ([⟨false, ["c"]⟩] : FS) ↔
        (q ∈ ([⟨false, ["a"]⟩, ⟨false, ["c"]⟩] : FS) ∧
          q ∉ pre.map fun f => f.Path)) ∧
      (∀ g ∈ post, (g.Path ∈ ([⟨false, ["c"]⟩] : FS) ↔
        g.Path ∈ ([⟨false, ["a"]⟩, ⟨false, ["c"]⟩] : FS))) :=
  DeleteFiles_fail_fast
    [⟨⟨false, ["a"]⟩, "h"⟩, ⟨⟨false, ["b"]⟩, "h"⟩, ⟨⟨false, ["c"]⟩, "h"⟩]
    [⟨false, ["a"]⟩, ⟨false, ["c"]⟩] [⟨false, ["c"]⟩] ⟨false, ["b"]⟩
    (by decide) rfl

/-- C2: with a non-empty DuplicateSet, running the deletion phase without
confirmation (flag unset, or any answer other than yes) leaves the
filesystem untouched and prints exactly one plan entry per duplicate;
running it confirmed removes exactly the files listed in the DuplicateSet
and no other file (all duplicates on disk and distinct, the success case
the claim describes). -/
theorem runDeletionPhase_gating (duplicates : List FileInfo)
    (refDir targetDir : DirectoryInfo) (fs : FS) (flag : Bool)
    (input : String) (hne : duplicates ≠ [])
    (hnd : (duplicates.map fun f => f.Path).Nodup)
    (hall : ∀ f ∈ duplicates, f.Path ∈ fs) :
    ((flag = false ∨ trimSpace input ≠ "yes") →
      runDeletionPhase flag input duplicates refDir targetDir fs
        = (fs, printDeletionPlan duplicates refDir targetDir, none) ∧
      (printDeletionPlan duplicates refDir targetDir).length
        = duplicates.length) ∧
    (flag = true → trimSpace input = "yes" →
      (runDeletionPhase flag input duplicates refDir targetDir fs).2.2
        = none ∧
      ∀ q, q ∈ (runDeletionPhase flag input duplicates refDir targetDir fs).1
        ↔ (q ∈ fs ∧ q ∉ duplicates.map fun f => f.Path)) := by
  have hlen : (printDeletionPlan duplicates refDir targetDir).length
      = duplicates.length := by
    rw [printDeletionPlan, List.length_map]
  constructor
  · intro hcase
    cases flag with
    | false => exact ⟨by rw [runDeletionPhase]; simp, hlen⟩
    | true =>
      have hin : trimSpace input ≠ "yes" := by
        rcases hcase with hf | hi
        · cases hf
        · exact hi
      exact ⟨by rw [runDeletionPhase]; simp [hin], hlen⟩
  · intro hf hy
    subst hf
    have hrun : runDeletionPhase true input duplicates refDir targetDir fs
        = ((DeleteFiles fs duplicates).1, [], (DeleteFiles fs duplicates).2) := by
      rw [runDeletionPhase]
      simp [hy]
    obtain ⟨hd1, hd2⟩ := DeleteFiles_all_present duplicates fs hall hnd
    exact ⟨by rw [hrun]; exact hd1, fun q => by rw [hrun]; exact hd2 q⟩

/-- Witness for C2: a confirmed run on a concrete one-element DuplicateSet
reports no error and leaves the unlisted file on disk. -/
theorem runDeletionPhase_gating_witness :
    ((runDeletionPhase true "yes" [⟨⟨false, ["t", "a.txt"]⟩, "h"⟩]
        ⟨⟨false, ["r"]⟩, [⟨⟨false, ["r", "a.txt"]⟩, "h"⟩]⟩
        ⟨⟨false, ["t"]⟩, [⟨⟨false, ["t", "a.txt"]⟩, "h"⟩]⟩
        [⟨false, ["t", "a.txt"]⟩, ⟨false, ["t", "b.txt"]⟩]).2.2 = none) ∧
    ((⟨false, ["t", "b.txt"]⟩ : GoPath) ∈
      (runDeletionPhase true "yes" [⟨⟨false, ["t", "a.txt"]⟩, "h"⟩]
        ⟨⟨false, ["r"]⟩, [⟨⟨false, ["r", "a.txt"]⟩, "h"⟩]⟩
        ⟨⟨false, ["t"]⟩, [⟨⟨false, ["t", "a.txt"]⟩, "h"⟩]⟩
        [⟨false, ["t", "a.txt"]⟩, ⟨false, ["t", "b.txt"]⟩]).1
      ↔ ((⟨false, ["t", "b.txt"]⟩ : GoPath) ∈
          ([⟨false, ["t", "a.txt"]⟩, ⟨false, ["t", "b.txt"]⟩] : FS) ∧
        (⟨false, ["t", "b.txt"]⟩ : GoPath) ∉
          ([⟨⟨false, ["t", "a.txt"]⟩, "h"⟩] : List FileInfo).map
            fun f => f.Path)) :=
  ⟨((runDeletionPhase_gating [⟨⟨false, ["t", "a.txt"]⟩, "h"⟩]
      ⟨⟨false, ["r"]⟩, [⟨⟨false, ["r", "a.txt"]⟩, "h"⟩]⟩
      ⟨⟨false, ["t"]⟩, [⟨⟨false, ["t", "a.txt"]⟩, "h"⟩]⟩
      [⟨false, ["t", "a.txt"]⟩, ⟨false, ["t", "b.txt"]⟩] true "yes"
      (by decide) (by decide) (by decide)).2 rfl rfl).1,
   ((runDeletionPhase_gating [⟨⟨false, ["t", "a.txt"]⟩, "h"⟩]
      ⟨⟨false, ["r"]⟩, [⟨⟨false, ["r", "a.txt"]⟩, "h"⟩]⟩
      ⟨⟨false, ["t"]⟩, [⟨⟨false, ["t", "a.txt"]⟩, "h"⟩]⟩
      [⟨false, ["t", "a.txt"]⟩, ⟨false, ["t", "b.txt"]⟩] true "yes"
      (by decide) (by decide) (by decide)).2 rfl rfl).2
     ⟨false, ["t", "b.txt"]⟩⟩

/-- Counterexample to C6: with two reference files sharing a digest, the
plan annotation is the path of the second (last) one, while the first
reference record in snapshot order with that digest is the first one — the
lookup map is built by overwriting Go map assignments, so the last write
wins, not the first. -/
theorem printDeletionPlan_first_annotation_refuted :
    firstRefPathWithDigest
        ⟨⟨false, ["r"]⟩, [⟨⟨false, ["r", "a.txt"]⟩, "h"⟩,
          ⟨⟨false, ["r", "b", "a.txt"]⟩, "h"⟩]⟩ "h"
      = some ⟨false, ["r", "a.txt"]⟩ ∧
    printDeletionPlan [⟨⟨false, ["t", "a.txt"]⟩, "h"⟩]
        ⟨⟨false, ["r"]⟩, [⟨⟨false, ["r", "a.txt"]⟩, "h"⟩,
          ⟨⟨false, ["r", "b", "a.txt"]⟩, "h"⟩]⟩
        ⟨⟨false, ["t"]⟩, [⟨⟨false, ["t", "a.txt"]⟩, "h"⟩]⟩
      = [(⟨false, ["t", "a.txt"]⟩, ⟨false, ["r", "b", "a.txt"]⟩)] ∧
    (⟨false, ["r", "b", "a.txt"]⟩ : GoPath) ≠ ⟨false, ["r", "a.txt"]⟩ :=
  ⟨rfl, rfl, by decide⟩

/-- C6 as amended: the deletion-plan entry for each DuplicateSet member is
annotated with the path of the last reference FileRecord, in
reference-snapshot order, whose digest equals the duplicate's digest (the
first found when scanning the snapshot in reverse), or the zero-value path
when no reference record carries the digest. -/
theorem printDeletionPlan_annotates_last (duplicates : List FileInfo)
    (refDir targetDir : DirectoryInfo) :
    printDeletionPlan duplicates refDir targetDir
      = duplicates.map fun f =>
          (f.Path, ((refDir.Files.reverse.find? fun r => r.Hash == f.Hash).map
            fun r => r.Path).getD emptyGoPath) := by
  unfold printDeletionPlan
  apply List.map_congr_left
  intro f _
  rw [refHashMap_eq_find_reverse]

/-- Counterexample to C8: the error of the relative-path derivation during
matching is silently swallowed. Both snapshots hold a record whose relative
path cannot be derived (relative file path under an absolute baseDir, as a
hand-edited YAML snapshot can produce); CompareFiles surfaces no error and
instead reports the target file — whose name and location differ from the
reference file's — as a duplicate, computed from the silently-defaulted
empty locator on both sides. -/
theorem CompareFiles_swallows_rel_error :
    goRel ⟨true, ["ref"]⟩ ⟨false, ["x.txt"]⟩ = none ∧
    goRel ⟨true, ["tgt"]⟩ ⟨false, ["y.txt"]⟩ = none ∧
    CompareFiles ⟨⟨true, ["ref"]⟩, [⟨⟨false, ["x.txt"]⟩, "h"⟩]⟩
        ⟨⟨true, ["tgt"]⟩, [⟨⟨false, ["y.txt"]⟩, "h"⟩]⟩ true
      = [⟨⟨false, ["y.txt"]⟩, "h"⟩] :=
  ⟨rfl, rfl, rfl⟩

/-- C8 as amended: directory-listing and file-hashing failures during a
scan propagate to the caller (the first error wins and the call fails as a
whole), but a failing relative-path derivation during matching is the one
exception: its error is discarded and the empty-string locator silently
enters the reference index in its place. -/
theorem walk_errors_propagate_rel_defaults :
    (∀ (hashFn : List Nat → String) (root : GoPath) (tree : FsNode)
        (parallelism : Int) (outputYamlToStdout : Bool),
      0 < parallelism → treeHasError tree = true →
      ∃ e, WalkDirectory hashFn root tree parallelism outputYamlToStdout
        = .error e) ∧
    (∀ (d : DirectoryInfo) (f : FileInfo), f ∈ d.Files →
      goRel d.BaseDir f.Path = none →
      (f.Hash, "") ∈ GetFileMapFromDirectoryInfo d true) := by
  constructor
  · intro hashFn root tree parallelism outputYamlToStdout hpar herr
    have hnle : ¬ parallelism ≤ 0 := by omega
    obtain ⟨e, he⟩ := walkNode_error_of_treeHasError hashFn root tree herr
    exact ⟨e, by rw [WalkDirectory, if_neg hnle, he]⟩
  · intro d f hf hrel
    rw [mem_GetFileMap]
    exact ⟨f, hf, rfl, by simp [hrel]⟩

/-- Witness for the amended C8: a concrete unreadable file makes the scan
fail, and a concrete record with an underivable relative path lands in the
reference index under the empty locator. -/
theorem walk_errors_propagate_rel_defaults_witness :
    (∃ e, WalkDirectory (fun _ => "h") ⟨false, ["root"]⟩
        (.file "bad.txt" none) 1 false = .error e) ∧
    ("h", "") ∈ GetFileMapFromDirectoryInfo
        ⟨⟨true, ["ref"]⟩, [⟨⟨false, ["x.txt"]⟩, "h"⟩]⟩ true :=
  ⟨walk_errors_propagate_rel_defaults.1 (fun _ => "h") ⟨false, ["root"]⟩
      (.file "bad.txt" none) 1 false (by decide) rfl,
   walk_errors_propagate_rel_defaults.2
      ⟨⟨true, ["ref"]⟩, [⟨⟨false, ["x.txt"]⟩, "h"⟩]⟩
      ⟨⟨false, ["x.txt"]⟩, "h"⟩ (by decide) rfl⟩
